import Mathlib

/-!
# Verification of the voice-agent keyword-routing, session and undo core

Shallow embedding of `src/voice_agent/agents.py` and `src/voice_agent/commands.py`
(the keyword extraction engine, command resolver, session-state store and undo
engine), with theorems settling the spec claims about them.

Modelling conventions:
* Python `str` is modelled as Lean `String` (a list of `Char`).  `str.lower`,
  `str.split()` (whitespace split), `str.split("\n")`, `str.strip`,
  `" ".join`, `str.replace("-", " ")` and the substring / membership operators
  are given explicit executable models below.  Lowercasing and whitespace
  classification are modelled on the Basic Latin range (as CPython behaves on
  ASCII input; the routing keywords of this program are all ASCII).
* Python dicts (which iterate in insertion order) are modelled as association
  lists; `dict.get` is `dictGet`.
* File-backed state (the session JSON file, the food journal, notes.md) is
  modelled by explicit state passing: each operation takes the relevant file
  contents (`Option String`: `none` = file absent) and returns the new
  contents together with its result.
* Exceptions that the Python code can raise or catch are modelled with
  `Except PyError`.
-/

namespace VoiceAgent

/-! ## Python string primitives -/

/-- ASCII whitespace, as recognised by Python's `str.split()` / `str.strip()`
(space, tab, newline, carriage return, vertical tab, form feed). -/
def pyIsSpace (c : Char) : Bool :=
  c == ' ' || c == '\t' || c == '\n' || c == '\r' || c == '\x0b' || c == '\x0c'

/-- Worker for `str.split()`: splits a character list on runs of whitespace,
discarding empty fragments.  `acc` holds the (reversed) current word. -/
def splitWSAux : List Char → List Char → List (List Char)
  | [], acc => if acc.isEmpty then [] else [acc.reverse]
  | c :: cs, acc =>
    if pyIsSpace c then
      if acc.isEmpty then splitWSAux cs [] else acc.reverse :: splitWSAux cs []
    else
      splitWSAux cs (c :: acc)

/-- Python `text.split()`: whitespace-delimited words, no empty words. -/
def pySplit (s : String) : List String :=
  (splitWSAux s.data []).map String.mk

/-- Python `text.lower()` (ASCII range, see module comment). -/
def pyLower (s : String) : String :=
  String.mk (s.data.map Char.toLower)

/-- Python `sep.join(words)`. -/
def pyJoin (sep : String) : List String → String
  | [] => ""
  | [w] => w
  | w :: ws => w ++ sep ++ pyJoin sep ws

/-- Python `name.replace("-", " ")` (single-character pattern). -/
def replaceDash (s : String) : String :=
  String.mk (s.data.map fun c => if c = '-' then ' ' else c)

/-- Python `needle in hay` on lists: contiguous-sublist test. -/
def subList (needle : List Char) : List Char → Bool
  | [] => needle.isEmpty
  | c :: cs => needle.isPrefixOf (c :: cs) || subList needle cs

/-- Python `needle in hay` on strings: substring test. -/
def strIn (needle hay : String) : Bool :=
  subList needle.data hay.data

/-- Python `s.strip()`: drop leading and trailing whitespace. -/
def pyStrip (s : String) : String :=
  String.mk (((s.data.dropWhile pyIsSpace).reverse.dropWhile pyIsSpace).reverse)

/-- Worker for `content.split("\n")`: `acc` holds the (reversed) current line. -/
def splitNlAux : List Char → List Char → List (List Char)
  | [], acc => [acc.reverse]
  | c :: cs, acc =>
    if c = '\n' then acc.reverse :: splitNlAux cs [] else splitNlAux cs (c :: acc)

/-- Python `content.split("\n")` (always returns at least one element;
`"".split("\n") == [""]`). -/
def splitNl (s : String) : List String :=
  (splitNlAux s.data []).map String.mk

/-- Python `max` on a list of natural numbers (the code only applies it to a
non-empty list, where the `0` seed is inert). -/
def maxNat (l : List Nat) : Nat :=
  l.foldl Nat.max 0

/-- Python truthiness of an `str | None` value (`None` and `""` are falsy),
as used by the `if result["agent_name"]:` / `if result["command"]:` breaks. -/
def pyTruthy : Option String → Bool
  | none => false
  | some s => decide (s ≠ "")

/-- Python `x in l` where `x : str | None` and `l : list[str]`
(`None in l` is `False` for a list of strings). -/
def optMem (x : Option String) (l : List String) : Bool :=
  match x with
  | none => false
  | some a => decide (a ∈ l)

/-- Python `d.get(key)` on an insertion-ordered dict modelled as an
association list. -/
def dictGet {α : Type} : List (String × α) → String → Option α
  | [], _ => none
  | (k, v) :: rest, key => if key = k then some v else dictGet rest key

/-! ## Configuration model (`agents.py`, dataclasses) -/

/-- `CommandConfig` dataclass: configuration for a command.
`agents = []` means the command is universal. -/
structure CommandConfig where
  name : String
  agents : List String := []
  silent : Bool := false
  aliases : List String := []
deriving DecidableEq, Repr

/-- `AgentConfig` dataclass: configuration for a voice agent
(`path` is a filesystem path, modelled as its string). -/
structure AgentConfig where
  name : String
  path : String
  triggers : List String := []
deriving DecidableEq, Repr

/-- `VoiceAgentConfig` dataclass.  The `commands` and `agents` dicts iterate
in insertion order, hence association lists. -/
structure VoiceAgentConfig where
  keywords : List String := []
  commands : List (String × CommandConfig) := []
  agents : List (String × AgentConfig) := []
deriving DecidableEq, Repr

/-- `KeywordExtractionResult` TypedDict. -/
structure KeywordExtractionResult where
  has_agent_keyword : Bool
  agent_name : Option String
  command : Option String
  message : String
deriving DecidableEq, Repr

/-! ## Keyword extraction engine (`extract_keywords_from_window`) -/

/-- The `for agent_name, agent in config.agents.items():` loop.  For each
agent the two variants `[agent_name, agent_name.replace("-", " ")]` are
tested as substrings of the joined window text; both variants assign the same
value, so the inner `for variant ... break` is the disjunction of the two
tests.  The trailing `if result["agent_name"]: break` is a Python-truthiness
test, so an empty-string agent name does not stop the loop. -/
def findAgentLoop (window_text : String) : List (String × AgentConfig) → Option String → Option String
  | [], cur => cur
  | (agent_name, _) :: rest, cur =>
    let cur' :=
      if strIn agent_name window_text || strIn (replaceDash agent_name) window_text then
        some agent_name
      else cur
    if pyTruthy cur' then cur' else findAgentLoop window_text rest cur'

/-- The `for cmd_name, cmd in config.commands.items():` loop.  A command with
a non-empty allow-list not containing the resolved agent name is skipped
(`continue`); otherwise the window's words are tested against the canonical
name and the aliases, recording the canonical name on a hit.  The trailing
`if result["command"]: break` is again a truthiness test. -/
def findCommandLoop (window : List String) (agentName : Option String) :
    List (String × CommandConfig) → Option String → Option String
  | [], cur => cur
  | (cmd_name, cmd) :: rest, cur =>
    if !cmd.agents.isEmpty && !optMem agentName cmd.agents then
      findCommandLoop window agentName rest cur
    else
      let cur' :=
        if (cmd_name :: cmd.aliases).any (fun n => decide (n ∈ window)) then
          some cmd_name
        else cur
      if pyTruthy cur' then cur' else findCommandLoop window agentName rest cur'

/-- The keyword-position loop: for each word of the scan window (index `i`),
`i` is appended once if the word is the literal `"agent"`, once more if it is
some command's canonical name or alias (allow-lists are NOT consulted here),
and once more if it equals some agent's name or one of the words of its
hyphen-split name. -/
def wordPositionsAux (config : VoiceAgentConfig) : Nat → List String → List Nat
  | _, [] => []
  | i, w :: ws =>
    ((if w = "agent" then [i] else []) ++
     (if config.commands.any (fun p => decide (w = p.1 ∨ w ∈ p.2.aliases)) then [i] else []) ++
     (if config.agents.any (fun p => decide (w ∈ pySplit (replaceDash p.1) ∨ w = p.1)) then [i] else []))
    ++ wordPositionsAux config (i + 1) ws

/-- `extract_keywords_from_window(text, config, window_size=5)`: extract agent
routing keywords from the first `window_size` words. -/
def extract_keywords_from_window (text : String) (config : VoiceAgentConfig)
    (window_size : Nat := 5) : KeywordExtractionResult :=
  let words := pySplit (pyLower text)
  let window := words.take window_size
  let window_text := pyJoin " " window
  if "agent" ∉ window then
    { has_agent_keyword := false, agent_name := none, command := none, message := text }
  else
    let agentName := findAgentLoop window_text config.agents none
    let cmdName := findCommandLoop window agentName config.commands none
    let keyword_positions := wordPositionsAux config 0 (words.take window_size)
    let message :=
      if keyword_positions ≠ [] then
        pyJoin " " (words.drop (maxNat keyword_positions + 1))
      else text
    { has_agent_keyword := true, agent_name := agentName, command := cmdName,
      message := message }

/-- `get_command_for_agent(command_name, agent_name, config)`: the command's
config if it is universal (empty allow-list) or the agent is allowed,
else `None`. -/
def get_command_for_agent (command_name : String) (agent_name : Option String)
    (config : VoiceAgentConfig) : Option CommandConfig :=
  match dictGet config.commands command_name with
  | none => none
  | some cmd =>
    if cmd.agents.isEmpty || optMem agent_name cmd.agents then some cmd else none

/-! ## Session state store (`agents.py`, `.agent-session.json`)

The persisted session file is modelled by `SessionStore`:
* `missing`      — the file does not exist;
* `unreadable`   — reading it raises `OSError`;
* `invalidJson`  — `json.loads` raises `json.JSONDecodeError`;
* `nonDictJson`  — `json.loads` succeeds but yields a non-dict JSON value
                   (e.g. the file contains `null`, `3` or `[]`); `.get` on it
                   raises `AttributeError` and item assignment raises
                   `TypeError`, neither of which the code catches;
* `dict d`       — a JSON object, restricted to the two keys this module uses.

In a `dict` record, `current_agent : Option (Option String)` distinguishes
"key absent" (`none`) from "key present with value null" (`some none`) and
"key present with a string" (`some (some a)`). -/

/-- The `last_command` record written by `save_last_command`. -/
structure LastCommand where
  agent : Option String
  command : String
  message : String
  agent_path : String
deriving DecidableEq, Repr

/-- The session JSON object (the keys this module reads and writes). -/
structure SessionData where
  current_agent : Option (Option String) := none
  last_command : Option LastCommand := none
deriving DecidableEq, Repr

/-- The persisted session file, see the section comment. -/
inductive SessionStore where
  | missing
  | unreadable
  | invalidJson
  | nonDictJson
  | dict (d : SessionData)
deriving DecidableEq, Repr

/-- Uncaught Python exceptions the modelled session code can raise. -/
inductive PyError where
  | typeError
  | attributeError
deriving DecidableEq, Repr

/-- `_load_session_data()`: `{}` when the file is missing or when reading or
JSON-decoding fails (`json.JSONDecodeError` and `OSError` are caught).  On a
`nonDictJson` store the Python function returns the non-dict value itself and
the callers' subsequent item assignment raises; callers below handle that
case separately and never use this value for it. -/
def _load_session_data : SessionStore → SessionData
  | .dict d => d
  | _ => {}

/-- `load_current_agent()`: `None` if the file is missing; `data.get("current_agent")`
after parsing, with `json.JSONDecodeError` and `OSError` caught and turned
into `None`.  A file that parses to a non-dict JSON value makes
`data.get` raise an uncaught `AttributeError`. -/
def load_current_agent : SessionStore → Except PyError (Option String)
  | .missing => .ok none
  | .unreadable => .ok none
  | .invalidJson => .ok none
  | .nonDictJson => .error .attributeError
  | .dict d => .ok d.current_agent.join

/-- `save_current_agent(agent_name)`: read-modify-write of the session file,
setting the `current_agent` key (possibly to `null`).  On a non-dict JSON
file the item assignment `data["current_agent"] = agent_name` raises an
uncaught `TypeError`. -/
def save_current_agent (agent_name : Option String) (st : SessionStore) :
    Except PyError SessionStore :=
  match st with
  | .nonDictJson => .error .typeError
  | _ => .ok (.dict { _load_session_data st with current_agent := some agent_name })

/-- `save_last_command(agent_name, command, message, agent_path)`:
read-modify-write of the session file, setting the `last_command` key. -/
def save_last_command (agent_name : Option String) (command message agent_path : String)
    (st : SessionStore) : Except PyError SessionStore :=
  match st with
  | .nonDictJson => .error .typeError
  | _ => .ok (.dict { _load_session_data st with
                      last_command := some ⟨agent_name, command, message, agent_path⟩ })

/-! ## Undo engine (`commands.py`) -/

/-- The two files `undo_last` can touch inside an agent directory:
the current calendar-month's food journal (`food-journal/YYYY-MM.jsonl`;
the month is chosen by `datetime.now()`, which we abstract away by modelling
exactly that file) and `notes.md`.  `none` = file absent. -/
structure AgentFiles where
  journal : Option String
  notes : Option String
deriving DecidableEq, Repr

/-- `_undo_last_food_entry`: remove the last line from the current month's
food journal.  Returns the success flag and the new journal contents. -/
def _undo_last_food_entry : Option String → Bool × Option String
  | none => (false, none)
  | some content =>
    let lines := splitNl (pyStrip content)
    if lines = [] ∨ lines = [""] then
      (false, some content)
    else
      let remaining := lines.dropLast
      (true, some (if remaining ≠ [] then pyJoin "\n" remaining ++ "\n" else ""))

/-- The regex `r"\n## \d{4}-\d{2}-\d{2} \d{2}:\d{2}\n[^#]*$"` tested at a given
suffix of the document: a newline, a `## ` timestamp heading line, and then a
tail containing no `#`.  (`[^#]*` matches newlines, so with the greedy star the
`$` anchor — end of string, or just before a final newline — is reachable
exactly when the tail after the heading line is `#`-free.) -/
def noteTail : List Char → Bool
  | '\n' :: '#' :: '#' :: ' ' :: y1 :: y2 :: y3 :: y4 :: '-' :: m1 :: m2 :: '-' ::
      d1 :: d2 :: ' ' :: h1 :: h2 :: ':' :: n1 :: n2 :: '\n' :: rest =>
    y1.isDigit && y2.isDigit && y3.isDigit && y4.isDigit &&
    m1.isDigit && m2.isDigit && d1.isDigit && d2.isDigit &&
    h1.isDigit && h2.isDigit && n1.isDigit && n2.isDigit &&
    rest.all (· ≠ '#')
  | _ => false

/-- `re.search` for the pattern above: the match at the leftmost position wins;
`i` is the index of the current suffix within the document. -/
def findFrom : List Char → Nat → Option Nat
  | [], _ => none
  | c :: cs, i => if noteTail (c :: cs) then some i else findFrom cs (i + 1)

/-- `_undo_last_note`: remove the last note entry from `notes.md` by replacing
the content with its prefix before `match.start()`.  Returns the success flag
and the new notes contents. -/
def _undo_last_note : Option String → Bool × Option String
  | none => (false, none)
  | some content =>
    match findFrom content.data 0 with
    | none => (false, some content)
    | some i => (true, some (String.mk (content.data.take i)))

/-- `undo_last(command, agent_path)`: dispatch on the command name; any
command other than `log`, `listen`, `note` is unsupported and fails. -/
def undo_last (command : String) (fs : AgentFiles) : Bool × AgentFiles :=
  if command = "log" then
    let r := _undo_last_food_entry fs.journal
    (r.1, { fs with journal := r.2 })
  else if command = "listen" ∨ command = "note" then
    let r := _undo_last_note fs.notes
    (r.1, { fs with notes := r.2 })
  else
    (false, fs)

/-! ## Concrete configurations used by individual claims -/

/-- Configuration with `add` as an alias of command `log` allowed for agent
`diet` (as in the spec's alias-canonicalization example and the repo's own
config). -/
def aliasConfig : VoiceAgentConfig :=
  { commands := [("log", { name := "log", agents := ["diet"], aliases := ["add", "record"] })],
    agents := [("diet", { name := "diet", path := "/agents/diet", triggers := ["diet agent"] })] }

/-- A command `log` restricted to agent `diet` (allow-list example). -/
def dietOnlyLog : CommandConfig :=
  { name := "log", agents := ["diet"] }

/-- Configuration holding only `dietOnlyLog`. -/
def allowListConfig : VoiceAgentConfig :=
  { commands := [("log", dietOnlyLog)] }

/-- Configuration whose only command `zap` is allowed only for agent
`frontier`, whose name never matches the inputs used with it: lets a claim
exercise keyword stripping of a command that is not available for the
resolved agent. -/
def restrictedConfig : VoiceAgentConfig :=
  { commands := [("zap", { name := "zap", agents := ["frontier"] })],
    agents := [("frontier", { name := "frontier", path := "/agents/frontier" })] }

/-! ## Spec-side definition for the note-undo refinement claim -/

/-- Modelled from the spec's words, for comparison with `_undo_last_note`:
a `"## <date> <time>"` heading line sits at the current position (the start
of a line) and spans a whole line; everything from a trailing such heading to
the end of the file is "the last section". -/
def specNoteHeadingHere : List Char → Bool
  | '#' :: '#' :: ' ' :: y1 :: y2 :: y3 :: y4 :: '-' :: m1 :: m2 :: '-' ::
      d1 :: d2 :: ' ' :: h1 :: h2 :: ':' :: n1 :: n2 :: rest =>
    y1.isDigit && y2.isDigit && y3.isDigit && y4.isDigit &&
    m1.isDigit && m2.isDigit && d1.isDigit && d2.isDigit &&
    h1.isDigit && h2.isDigit && n1.isDigit && n2.isDigit &&
    (rest.isEmpty || rest.head? = some '\n')
  | _ => false

/-- Modelled from the spec's words: the document contains a
`"## <date> <time>"`-delimited section, i.e. such a heading line starts at
the beginning of the document or right after a newline. -/
def specNoteSectionExists (s : String) : Bool :=
  (List.range (s.data.length + 1)).any fun i =>
    (decide (i = 0) || decide (s.data.get? (i - 1) = some '\n')) &&
    specNoteHeadingHere (s.data.drop i)

/-! ## Helper lemmas -/

theorem toNat_ofNat_valid {n : Nat} (h : n.isValidChar) : (Char.ofNat n).toNat = n := by
  rw [Char.ofNat, dif_pos h]
  rfl

/-- ASCII lowercasing is idempotent. -/
theorem toLower_toLower (c : Char) : c.toLower.toLower = c.toLower := by
  by_cases h : c.toNat ≥ 65 ∧ c.toNat ≤ 90
  · have h1 : c.toLower = Char.ofNat (c.toNat + 32) := by
      simp only [Char.toLower]
      rw [if_pos h]
    have hv : (c.toNat + 32).isValidChar := Or.inl (by omega)
    have ht : (Char.ofNat (c.toNat + 32)).toNat = c.toNat + 32 := toNat_ofNat_valid hv
    rw [h1]
    simp only [Char.toLower]
    rw [ht, if_neg (by omega)]
  · have h1 : c.toLower = c := by
      simp only [Char.toLower]
      rw [if_neg h]
    rw [h1, h1]

/-- Every character of a word produced by the whitespace splitter comes from
the split text or from the accumulator. -/
theorem mem_splitWSAux {c : Char} :
    ∀ (cs acc : List Char) (w : List Char), w ∈ splitWSAux cs acc → c ∈ w →
      c ∈ cs ∨ c ∈ acc := by
  intro cs
  induction cs with
  | nil =>
    intro acc w hw hc
    rw [splitWSAux] at hw
    split at hw
    · cases hw
    · rcases List.mem_singleton.mp hw with rfl
      exact Or.inr (List.mem_reverse.mp hc)
  | cons x cs ih =>
    intro acc w hw hc
    rw [splitWSAux] at hw
    split at hw
    · split at hw
      · rcases ih [] w hw hc with h | h
        · exact Or.inl (List.mem_cons_of_mem x h)
        · cases h
      · rcases List.mem_cons.mp hw with rfl | hw'
        · exact Or.inr (List.mem_reverse.mp hc)
        · rcases ih [] w hw' hc with h | h
          · exact Or.inl (List.mem_cons_of_mem x h)
          · cases h
    · rcases ih (x :: acc) w hw hc with h | h
      · exact Or.inl (List.mem_cons_of_mem x h)
      · rcases List.mem_cons.mp h with hcx | h'
        · exact Or.inl (List.mem_cons.mpr (Or.inl hcx))
        · exact Or.inr h'

/-- Characters of a lowercased string are fixed by lowercasing. -/
theorem mem_pyLower_fixed {s : String} {c : Char} (h : c ∈ (pyLower s).data) :
    c.toLower = c := by
  rcases List.mem_map.mp h with ⟨x, _, rfl⟩
  exact toLower_toLower x

/-- Characters of a word of `pySplit (pyLower t)` are fixed by lowercasing. -/
theorem mem_split_lower_fixed {t : String} {w : String} {c : Char}
    (hw : w ∈ pySplit (pyLower t)) (hc : c ∈ w.data) : c.toLower = c := by
  rcases List.mem_map.mp hw with ⟨l, hl, rfl⟩
  rcases mem_splitWSAux (pyLower t).data [] l hl hc with h | h
  · exact mem_pyLower_fixed h
  · cases h

/-- Every character of a joined word list comes from the separator or from one
of the words. -/
theorem mem_pyJoin {sep : String} {c : Char} :
    ∀ ws : List String, c ∈ (pyJoin sep ws).data →
      c ∈ sep.data ∨ ∃ w ∈ ws, c ∈ w.data := by
  intro ws
  induction ws with
  | nil =>
    intro h
    cases h
  | cons w ws ih =>
    intro h
    cases ws with
    | nil =>
      exact Or.inr ⟨w, List.mem_singleton.mpr rfl, h⟩
    | cons v vs =>
      rw [show pyJoin sep (w :: v :: vs) = w ++ sep ++ pyJoin sep (v :: vs) from rfl,
          String.data_append, String.data_append] at h
      rcases List.mem_append.mp h with h' | h'
      · rcases List.mem_append.mp h' with h'' | h''
        · exact Or.inr ⟨w, List.mem_cons_self _ _, h''⟩
        · exact Or.inl h''
      · rcases ih h' with h'' | ⟨u, hu, hcu⟩
        · exact Or.inl h''
        · exact Or.inr ⟨u, List.mem_cons_of_mem _ hu, hcu⟩

/-- Mapping a function that fixes every element of a list is the identity. -/
theorem map_fixed {l : List Char} (h : ∀ c ∈ l, Char.toLower c = c) :
    l.map Char.toLower = l := by
  induction l with
  | nil => rfl
  | cons x xs ih =>
    rw [List.map_cons, h x (List.mem_cons_self x xs),
        ih fun c hc => h c (List.mem_cons_of_mem x hc)]

/-- A string all of whose characters are fixed by lowercasing is fixed by
`pyLower`. -/
theorem pyLower_fixed {s : String} (h : ∀ c ∈ s.data, Char.toLower c = c) :
    pyLower s = s := by
  rw [pyLower, map_fixed h]

/-- A window containing the literal word `"agent"` yields a non-empty keyword
position list (clause (a) of the position loop fires at that word's index). -/
theorem wordPositionsAux_ne_nil (config : VoiceAgentConfig) :
    ∀ {l : List String}, "agent" ∈ l → ∀ n, wordPositionsAux config n l ≠ [] := by
  intro l
  induction l with
  | nil =>
    intro h
    cases h
  | cons w ws ih =>
    intro h n
    rw [wordPositionsAux]
    rcases List.mem_cons.mp h with rfl | hmem
    · rw [if_pos rfl]
      simp
    · intro hcontra
      exact ih hmem (n + 1) (List.append_eq_nil.mp hcontra).2

/-- `extract` can only report `has_agent_keyword = true` when the literal word
`"agent"` occurs in the scan window. -/
theorem extract_has_agent {text : String} {config : VoiceAgentConfig} {ws : Nat}
    (h : (extract_keywords_from_window text config ws).has_agent_keyword = true) :
    "agent" ∈ (pySplit (pyLower text)).take ws := by
  by_contra hn
  simp only [extract_keywords_from_window] at h
  rw [if_pos hn] at h
  cases h

/-- The command loop only ever records a canonical command name: its result is
a key of the traversed command list, unless it is the incoming accumulator. -/
theorem findCommandLoop_mem {window : List String} {a : Option String} :
    ∀ (cmds : List (String × CommandConfig)) (cur : Option String) (c : String),
      findCommandLoop window a cmds cur = some c →
      (∃ cc, (c, cc) ∈ cmds) ∨ cur = some c := by
  intro cmds
  induction cmds with
  | nil =>
    intro cur c h
    exact Or.inr h
  | cons p rest ih =>
    intro cur c h
    obtain ⟨cmd_name, cmd⟩ := p
    rw [findCommandLoop] at h
    split at h
    · rcases ih cur c h with ⟨cc, hcc⟩ | hc
      · exact Or.inl ⟨cc, List.mem_cons_of_mem _ hcc⟩
      · exact Or.inr hc
    · by_cases hany : ((cmd_name :: cmd.aliases).any fun n => decide (n ∈ window)) = true
      · rw [if_pos hany] at h
        simp only [] at h
        split at h
        · cases h
          exact Or.inl ⟨cmd, List.mem_cons_self _ _⟩
        · rcases ih _ c h with ⟨cc, hcc⟩ | hc
          · exact Or.inl ⟨cc, List.mem_cons_of_mem _ hcc⟩
          · cases hc
            exact Or.inl ⟨cmd, List.mem_cons_self _ _⟩
      · rw [if_neg hany] at h
        simp only [] at h
        split at h
        · exact Or.inr h
        · rcases ih _ c h with ⟨cc, hcc⟩ | hc
          · exact Or.inl ⟨cc, List.mem_cons_of_mem _ hcc⟩
          · exact Or.inr hc

/-! ## Claim theorems -/

/-- C1: for every input text, configuration and window size, if the literal
word `"agent"` does not appear among the first `window_size` lowercased
whitespace-delimited words, `extract` returns `has_agent_keyword = false`,
`agent_name = none`, `command = none`, and `message` equal to the original
input text verbatim. -/
theorem no_agent_keyword_returns_text (text : String) (config : VoiceAgentConfig)
    (window_size : Nat)
    (h : "agent" ∉ (pySplit (pyLower text)).take window_size) :
    extract_keywords_from_window text config window_size =
      { has_agent_keyword := false, agent_name := none, command := none,
        message := text } := by
  simp only [extract_keywords_from_window]
  rw [if_pos h]

/-- Witness for C1 at a concrete mixed-case input and the empty
configuration. -/
theorem no_agent_keyword_returns_text_witness :
    "agent" ∉ (pySplit (pyLower "what did I EAT")).take 5 ∧
    extract_keywords_from_window "what did I EAT" {} 5 =
      { has_agent_keyword := false, agent_name := none, command := none,
        message := "what did I EAT" } :=
  ⟨by decide, no_agent_keyword_returns_text "what did I EAT" {} 5 (by decide)⟩

/-- C9: with a configuration containing agent `diet` and command `log`,
`extract "diet agent log pizza"` and `extract "agent diet log pizza"` yield
identical `agent_name`, `command` and `message` (namely `diet` / `log` /
`"pizza"`): word order within the scan window does not matter for agent
matching, which is substring-based on the joined window text. -/
theorem extract_order_independence :
    (extract_keywords_from_window "diet agent log pizza" aliasConfig 5).agent_name =
      (extract_keywords_from_window "agent diet log pizza" aliasConfig 5).agent_name ∧
    (extract_keywords_from_window "diet agent log pizza" aliasConfig 5).command =
      (extract_keywords_from_window "agent diet log pizza" aliasConfig 5).command ∧
    (extract_keywords_from_window "diet agent log pizza" aliasConfig 5).message =
      (extract_keywords_from_window "agent diet log pizza" aliasConfig 5).message ∧
    (extract_keywords_from_window "diet agent log pizza" aliasConfig 5).agent_name =
      some "diet" ∧
    (extract_keywords_from_window "diet agent log pizza" aliasConfig 5).command =
      some "log" ∧
    (extract_keywords_from_window "diet agent log pizza" aliasConfig 5).message =
      "pizza" := by
  decide

/-- C2: whenever `extract` reports a command, the reported name is one of the
configuration's canonical command names (the keys of the command mapping),
never an alias string; in particular, with `add` an alias of `log` allowed
for agent `diet`, `extract "diet agent add pizza"` reports `log`. -/
theorem extract_command_canonical :
    (∀ (config : VoiceAgentConfig) (text : String) (ws : Nat) (c : String),
        (extract_keywords_from_window text config ws).command = some c →
        ∃ cc, (c, cc) ∈ config.commands) ∧
    (extract_keywords_from_window "diet agent add pizza" aliasConfig 5).command =
      some "log" := by
  constructor
  · intro config text ws c h
    simp only [extract_keywords_from_window] at h
    split at h
    · exact absurd h (by simp)
    · have h' : findCommandLoop ((pySplit (pyLower text)).take ws)
          (findAgentLoop (pyJoin " " ((pySplit (pyLower text)).take ws)) config.agents none)
          config.commands none = some c := h
      rcases findCommandLoop_mem config.commands none c h' with hm | hcur
      · exact hm
      · cases hcur
  · decide

/-- Witness for C2's general part at the alias example: the reported name
`log` is a key of the command mapping. -/
theorem extract_command_canonical_witness :
    ∃ cc, ("log", cc) ∈ aliasConfig.commands :=
  extract_command_canonical.1 aliasConfig "diet agent add pizza" 5 "log"
    extract_command_canonical.2

/-- C3: `get_command_for_agent` returns the command's definition exactly when
the command name is a key of the configuration and either its allow-list is
empty (universal) or the given agent is a member; in every other case it
returns `none` (it is a total function, so it never raises).  Concretely, a
command with `agents = ["diet"]` resolves to `none` against `budget` and to
the command against `diet`, and an unknown command resolves to `none`. -/
theorem get_command_for_agent_characterization :
    (∀ (config : VoiceAgentConfig) (cn : String) (an : Option String)
        (cc : CommandConfig),
        get_command_for_agent cn an config = some cc ↔
          (dictGet config.commands cn = some cc ∧
           (cc.agents = [] ∨ ∃ a, an = some a ∧ a ∈ cc.agents))) ∧
    get_command_for_agent "log" (some "budget") allowListConfig = none ∧
    get_command_for_agent "log" (some "diet") allowListConfig = some dietOnlyLog ∧
    get_command_for_agent "chart" (some "diet") allowListConfig = none := by
  refine ⟨?_, by decide, by decide, by decide⟩
  intro config cn an cc
  rw [get_command_for_agent]
  cases hd : dictGet config.commands cn with
  | none => simp [hd]
  | some cmd =>
    simp only [hd]
    constructor
    · intro h
      split at h
      case isTrue hcond =>
        cases h
        refine ⟨rfl, ?_⟩
        rw [Bool.or_eq_true] at hcond
        rcases hcond with he | hm
        · exact Or.inl (by simpa using he)
        · cases an with
          | none => cases hm
          | some a => exact Or.inr ⟨a, rfl, by simpa [optMem] using hm⟩
      case isFalse => cases h
    · rintro ⟨hcc, hor⟩
      cases hcc
      have hcond : (cc.agents.isEmpty || optMem an cc.agents) = true := by
        rcases hor with he | ⟨a, rfl, hmem⟩
        · simp [he]
        · simp [optMem, hmem]
      rw [if_pos hcond]

/-- Witness for C3's characterization at the allow-list example. -/
theorem get_command_for_agent_characterization_witness :
    dictGet allowListConfig.commands "log" = some dietOnlyLog ∧
    (dietOnlyLog.agents = [] ∨
      ∃ a, (some "diet" : Option String) = some a ∧ a ∈ dietOnlyLog.agents) :=
  (get_command_for_agent_characterization.1 allowListConfig "log" (some "diet")
      dietOnlyLog).mp
    get_command_for_agent_characterization.2.2.1

/-- C10: whenever `extract` reports `has_agent_keyword = true`, the keyword
position list is non-empty (the `"agent"` token itself is counted), so the
degenerate full-text fallback is unreachable: the message is always the
lowercased words strictly after the last keyword position, re-joined with
single spaces — hence entirely lowercase — and position stripping counts
commands that are not allowed for the resolved agent (concretely, `zap` is
restricted to the unresolved agent `frontier`, is not reported as the
command, yet is stripped from the message). -/
theorem message_after_last_keyword :
    (∀ (text : String) (config : VoiceAgentConfig) (ws : Nat),
        (extract_keywords_from_window text config ws).has_agent_keyword = true →
        wordPositionsAux config 0 ((pySplit (pyLower text)).take ws) ≠ [] ∧
        (extract_keywords_from_window text config ws).message =
          pyJoin " " ((pySplit (pyLower text)).drop
            (maxNat (wordPositionsAux config 0 ((pySplit (pyLower text)).take ws)) + 1)) ∧
        pyLower ((extract_keywords_from_window text config ws).message) =
          (extract_keywords_from_window text config ws).message) ∧
    ((extract_keywords_from_window "agent zap hello" restrictedConfig 5).command =
        none ∧
      (extract_keywords_from_window "agent zap hello" restrictedConfig 5).message =
        "hello") := by
  constructor
  · intro text config ws h
    have hmem := extract_has_agent h
    have hpos := wordPositionsAux_ne_nil config hmem 0
    have hmsg : (extract_keywords_from_window text config ws).message =
        pyJoin " " ((pySplit (pyLower text)).drop
          (maxNat (wordPositionsAux config 0 ((pySplit (pyLower text)).take ws)) + 1)) := by
      simp only [extract_keywords_from_window]
      rw [if_neg (not_not_intro hmem), if_pos hpos]
    refine ⟨hpos, hmsg, ?_⟩
    rw [hmsg]
    apply pyLower_fixed
    intro c hc
    rcases mem_pyJoin _ hc with hsep | ⟨w, hw, hcw⟩
    · have h2 : c ∈ [' '] := hsep
      rcases List.mem_singleton.mp h2 with rfl
      rfl
    · exact mem_split_lower_fixed (List.mem_of_mem_drop hw) hcw
  · exact ⟨by decide, by decide⟩

/-- Witness for C10's general part at a concrete mixed-case input and the
empty configuration. -/
theorem message_after_last_keyword_witness :
    wordPositionsAux {} 0 ((pySplit (pyLower "agent hello WORLD")).take 5) ≠ [] ∧
    (extract_keywords_from_window "agent hello WORLD" {} 5).message =
      pyJoin " " ((pySplit (pyLower "agent hello WORLD")).drop
        (maxNat (wordPositionsAux {} 0 ((pySplit (pyLower "agent hello WORLD")).take 5)) + 1)) ∧
    pyLower ((extract_keywords_from_window "agent hello WORLD" {} 5).message) =
      (extract_keywords_from_window "agent hello WORLD" {} 5).message :=
  message_after_last_keyword.1 "agent hello WORLD" {} 5 (by decide)

/-- C4: session-state mutations are read-modify-write on the whole persisted
record.  From any session store the Python code can write to (anything but a
valid-JSON-non-dict file), `save_current_agent "diet"` makes
`load_current_agent` return `"diet"`, preserves whatever `last_command`
record was persisted, and a subsequent `save_last_command` leaves
`current_agent` at `"diet"`. -/
theorem session_read_modify_write (st : SessionStore)
    (h : st ≠ SessionStore.nonDictJson) (a : Option String) (c m p : String) :
    ∃ st₁ st₂,
      save_current_agent (some "diet") st = Except.ok st₁ ∧
      load_current_agent st₁ = Except.ok (some "diet") ∧
      (_load_session_data st₁).last_command = (_load_session_data st).last_command ∧
      save_last_command a c m p st₁ = Except.ok st₂ ∧
      load_current_agent st₂ = Except.ok (some "diet") := by
  cases st with
  | missing => exact ⟨_, _, rfl, rfl, rfl, rfl, rfl⟩
  | unreadable => exact ⟨_, _, rfl, rfl, rfl, rfl, rfl⟩
  | invalidJson => exact ⟨_, _, rfl, rfl, rfl, rfl, rfl⟩
  | nonDictJson => exact absurd rfl h
  | dict d => exact ⟨_, _, rfl, rfl, rfl, rfl, rfl⟩

/-- Witness for C4, starting from a persisted record that already holds a
`last_command`. -/
theorem session_read_modify_write_witness :
    ∃ st₁ st₂,
      save_current_agent (some "diet")
          (SessionStore.dict
            { last_command := some ⟨some "budget", "log", "coffee", "/agents/budget"⟩ }) =
        Except.ok st₁ ∧
      load_current_agent st₁ = Except.ok (some "diet") ∧
      (_load_session_data st₁).last_command =
        (_load_session_data
          (SessionStore.dict
            { last_command := some ⟨some "budget", "log", "coffee", "/agents/budget"⟩ })).last_command ∧
      save_last_command none "listen" "idea" "/agents/diet" st₁ = Except.ok st₂ ∧
      load_current_agent st₂ = Except.ok (some "diet") :=
  session_read_modify_write
    (SessionStore.dict
      { last_command := some ⟨some "budget", "log", "coffee", "/agents/budget"⟩ })
    (by decide) none "listen" "idea" "/agents/diet"

/-- C8 counterexample: a persisted state that is valid JSON but not an object
(e.g. the file contains `null` or `[]`) is malformed session state, yet
`load_current_agent` propagates an uncaught `AttributeError` from
`data.get("current_agent")` instead of returning `None` — only
`json.JSONDecodeError` and `OSError` are caught. -/
theorem load_current_agent_nondict_raises :
    load_current_agent SessionStore.nonDictJson = Except.error PyError.attributeError ∧
    load_current_agent SessionStore.nonDictJson ≠ Except.ok none :=
  ⟨rfl, fun h => Except.noConfusion h⟩

/-- C8 (amended): `load_current_agent` returns `None` when the persisted
state is missing, unreadable (`OSError`), or not syntactically valid JSON
(`json.JSONDecodeError`) — those errors are swallowed; but a state that
parses to a non-dict JSON value raises an uncaught exception, so corruption
is only swallowed for those caught error classes. -/
theorem load_current_agent_swallows_caught_errors (st : SessionStore)
    (h : st = SessionStore.missing ∨ st = SessionStore.unreadable ∨
         st = SessionStore.invalidJson) :
    load_current_agent st = Except.ok none := by
  rcases h with rfl | rfl | rfl <;> rfl

/-- Witness for the amended C8 at a syntactically invalid JSON state. -/
theorem load_current_agent_swallows_caught_errors_witness :
    load_current_agent SessionStore.invalidJson = Except.ok none :=
  load_current_agent_swallows_caught_errors SessionStore.invalidJson
    (Or.inr (Or.inr rfl))

/-- The newline splitter never returns an empty list. -/
theorem splitNlAux_ne_nil : ∀ (cs acc : List Char), splitNlAux cs acc ≠ [] := by
  intro cs
  induction cs with
  | nil =>
    intro acc h
    cases h
  | cons c t ih =>
    intro acc
    rw [splitNlAux]
    split
    · intro h
      cases h
    · exact ih (c :: acc)

/-- The newline splitter returns `[[]]` exactly on empty input (and empty
accumulator). -/
theorem splitNlAux_eq_single_nil :
    ∀ (cs acc : List Char), splitNlAux cs acc = [[]] ↔ (cs = [] ∧ acc = []) := by
  intro cs
  induction cs with
  | nil =>
    intro acc
    rw [splitNlAux]
    constructor
    · intro h
      injection h with h1 _
      exact ⟨rfl, by simpa using h1⟩
    · rintro ⟨_, rfl⟩
      rfl
  | cons c t ih =>
    intro acc
    rw [splitNlAux]
    split
    · constructor
      · intro h
        injection h with _ h2
        exact absurd h2 (splitNlAux_ne_nil t [])
      · rintro ⟨h, _⟩
        cases h
    · rw [ih (c :: acc)]
      constructor
      · rintro ⟨_, h⟩
        cases h
      · rintro ⟨h, _⟩
        cases h

/-- `content.split("\n")` never returns an empty list. -/
theorem splitNl_ne_nil (s : String) : splitNl s ≠ [] := by
  rw [splitNl]
  intro h
  exact splitNlAux_ne_nil _ _ (List.map_eq_nil_iff.mp h)

/-- `content.split("\n") == [""]` exactly when `content` is empty. -/
theorem splitNl_eq_single_empty_iff (s : String) : splitNl s = [""] ↔ s = "" := by
  obtain ⟨data⟩ := s
  rw [splitNl]
  constructor
  · intro h
    have h2 : splitNlAux (String.mk data).data [] = [[]] := by
      rcases hl : splitNlAux (String.mk data).data [] with _ | ⟨a, rest⟩
      · exact absurd hl (splitNlAux_ne_nil _ _)
      · rw [hl, List.map_cons] at h
        injection h with ha hrest
        have ha' : a = [] := by
          have := congrArg String.data ha
          simpa using this
        have hrest' : rest = [] := List.map_eq_nil_iff.mp hrest
        rw [ha', hrest']
    have h3 : data = [] := ((splitNlAux_eq_single_nil _ _).mp h2).1
    rw [h3]
  · rintro h
    have : data = [] := by
      have := congrArg String.data h
      simpa using this
    rw [this]
    rfl

/-- C6: for every journal whose content still has a line after trimming
whitespace, log-family undo returns `True` and rewrites the file to exactly
the preceding (trimmed) lines re-joined with newlines plus a trailing
newline (empty content for a single-line journal): the last line is removed,
the preceding lines are unchanged, and the removed line's content is never
inspected (the result is stated for arbitrary content). -/
theorem undo_log_removes_last_line (content : String)
    (h : pyStrip content ≠ "") :
    _undo_last_food_entry (some content) =
      (true, some
        (if (splitNl (pyStrip content)).dropLast ≠ [] then
          pyJoin "\n" ((splitNl (pyStrip content)).dropLast) ++ "\n"
        else "")) := by
  have hguard : ¬(splitNl (pyStrip content) = [] ∨ splitNl (pyStrip content) = [""]) := by
    rintro (h1 | h1)
    · exact splitNl_ne_nil _ h1
    · exact h ((splitNl_eq_single_empty_iff _).mp h1)
  simp only [_undo_last_food_entry]
  rw [if_neg hguard]

/-- Witness for C6 at the spec's 2-line journal. -/
theorem undo_log_removes_last_line_witness :
    pyStrip "\x7b\"food\":\"breakfast\"\x7d\n\x7b\"food\":\"lunch\"\x7d\n" ≠ "" ∧
    _undo_last_food_entry
        (some "\x7b\"food\":\"breakfast\"\x7d\n\x7b\"food\":\"lunch\"\x7d\n") =
      (true, some "\x7b\"food\":\"breakfast\"\x7d\n") := by
  refine ⟨by decide, ?_⟩
  rw [undo_log_removes_last_line _ (by decide)]
  decide

/-- C7: when the current month's journal is absent, or present but empty
after trimming whitespace, log-family undo returns `False` and leaves the
file contents unchanged; doing it twice returns `False` both times (the
model is total, so no exception is raised). -/
theorem undo_log_empty_noop (j : Option String)
    (h : j = none ∨ ∃ c, j = some c ∧ pyStrip c = "") :
    _undo_last_food_entry j = (false, j) ∧
    _undo_last_food_entry (_undo_last_food_entry j).2 = (false, j) ∧
    ∀ notes, undo_last "log" ⟨j, notes⟩ = (false, ⟨j, notes⟩) := by
  have h1 : _undo_last_food_entry j = (false, j) := by
    rcases h with rfl | ⟨c, rfl, hc⟩
    · rfl
    · simp only [_undo_last_food_entry]
      rw [if_pos (Or.inr ((splitNl_eq_single_empty_iff _).mpr hc))]
  refine ⟨h1, ?_, ?_⟩
  · rw [h1]
    exact h1
  · intro notes
    simp only [undo_last]
    rw [if_pos trivial, h1]

/-- Witness for C7 at a whitespace-only journal. -/
theorem undo_log_empty_noop_witness :
    _undo_last_food_entry (some "  \n ") = (false, some "  \n ") ∧
    _undo_last_food_entry (_undo_last_food_entry (some "  \n ")).2 =
      (false, some "  \n ") ∧
    undo_last "log" ⟨some "  \n ", none⟩ = (false, ⟨some "  \n ", none⟩) :=
  ⟨(undo_log_empty_noop (some "  \n ") (Or.inr ⟨_, rfl, by decide⟩)).1,
   (undo_log_empty_noop (some "  \n ") (Or.inr ⟨_, rfl, by decide⟩)).2.1,
   (undo_log_empty_noop (some "  \n ") (Or.inr ⟨_, rfl, by decide⟩)).2.2 none⟩

/-- `re.search` finds no match exactly when no suffix matches the pattern. -/
theorem findFrom_eq_none : ∀ (cs : List Char) (i : Nat),
    findFrom cs i = none ↔ ∀ k, noteTail (cs.drop k) = false := by
  intro cs
  induction cs with
  | nil =>
    intro i
    constructor
    · intro _ k
      rw [List.drop_nil]
      rfl
    · intro _
      rfl
  | cons c t ih =>
    intro i
    rw [findFrom]
    by_cases hn : noteTail (c :: t) = true
    · rw [if_pos hn]
      constructor
      · intro h
        cases h
      · intro h
        have h0 : noteTail (c :: t) = false := by simpa using h 0
        rw [h0] at hn
        cases hn
    · rw [if_neg hn, ih (i + 1)]
      constructor
      · intro h k
        cases k with
        | zero =>
          simpa using Bool.eq_false_iff.mpr hn
        | succ k =>
          simpa using h k
      · intro h k
        simpa using h (k + 1)

/-- A successful `re.search` points at a matching suffix, left of which no
suffix matches. -/
theorem findFrom_eq_some : ∀ (cs : List Char) (i j : Nat),
    findFrom cs i = some j →
    i ≤ j ∧ noteTail (cs.drop (j - i)) = true ∧
      ∀ k, k < j - i → noteTail (cs.drop k) = false := by
  intro cs
  induction cs with
  | nil =>
    intro i j h
    cases h
  | cons c t ih =>
    intro i j h
    rw [findFrom] at h
    split at h
    case isTrue hn =>
      cases h
      refine ⟨Nat.le_refl _, ?_, ?_⟩
      · simpa using hn
      · intro k hk
        omega
    case isFalse hn =>
      obtain ⟨h1, h2, h3⟩ := ih (i + 1) j h
      refine ⟨by omega, ?_, ?_⟩
      · have he : j - i = (j - (i + 1)) + 1 := by omega
        rw [he]
        simpa using h2
      · intro k hk
        cases k with
        | zero =>
          simpa using Bool.eq_false_iff.mpr hn
        | succ k =>
          have := h3 k (by omega)
          simpa using this

/-- Conversely, the leftmost matching suffix is what `re.search` returns. -/
theorem findFrom_of_least : ∀ (cs : List Char) (n : Nat),
    noteTail (cs.drop n) = true →
    (∀ k, k < n → noteTail (cs.drop k) = false) →
    ∀ i, findFrom cs i = some (i + n) := by
  intro cs
  induction cs with
  | nil =>
    intro n h1 _ _
    rw [List.drop_nil] at h1
    cases h1
  | cons c t ih =>
    intro n h1 h2 i
    rw [findFrom]
    by_cases hn : noteTail (c :: t) = true
    · have hz : n = 0 := by
        by_contra hne
        have h0 : noteTail (c :: t) = false := by simpa using h2 0 (by omega)
        rw [h0] at hn
        cases hn
      rw [if_pos hn, hz]
      rfl
    · rw [if_neg hn]
      have hn0 : n ≠ 0 := by
        intro h0
        rw [h0] at h1
        have h1' : noteTail (c :: t) = true := by simpa using h1
        exact hn h1'
      obtain ⟨m, rfl⟩ : ∃ m, n = m + 1 := ⟨n - 1, by omega⟩
      have h1' : noteTail (t.drop m) = true := by simpa using h1
      have h2' : ∀ k, k < m → noteTail (t.drop k) = false := by
        intro k hk
        simpa using h2 (k + 1) (by omega)
      rw [ih m h1' h2' (i + 1)]
      have : i + 1 + m = i + (m + 1) := by omega
      rw [this]

/-- C5 counterexample: the document `"## 2024-01-01 10:00\npizza"` consists of
exactly one `"## <date> <time>"`-delimited section — its heading starts the
document and everything from it to end of file is the trailing section — yet
note-family undo returns `False` and removes nothing, because the regex
demands a newline *before* the heading.  (A body containing `#` fails the
same way via `[^#]*$`.)  So undo does not return `False` exactly when no
section exists. -/
theorem undo_note_misses_leading_section :
    specNoteSectionExists "## 2024-01-01 10:00\npizza" = true ∧
    undo_last "note" ⟨none, some "## 2024-01-01 10:00\npizza"⟩ =
      (false, ⟨none, some "## 2024-01-01 10:00\npizza"⟩) := by
  decide

/-- C5 (amended): note-family undo fails on an absent notes file; on a
present file it succeeds exactly when some suffix of the document matches
the newline-preceded `"## <date> <time>"` heading pattern with a `#`-free
tail, in which case the document is truncated at the leftmost such suffix
(the preceding newline is removed too); `undo_last` dispatches both
`"listen"` and `"note"` to this operation. -/
theorem undo_note_characterization :
    _undo_last_note none = (false, none) ∧
    (∀ content : String,
      ((_undo_last_note (some content)).1 = true ↔
        ∃ i, noteTail (content.data.drop i) = true)) ∧
    (∀ (content : String) (i : Nat),
      noteTail (content.data.drop i) = true →
      (∀ j, j < i → noteTail (content.data.drop j) = false) →
      _undo_last_note (some content) =
        (true, some (String.mk (content.data.take i)))) ∧
    (∀ fs : AgentFiles,
      undo_last "listen" fs =
        ((_undo_last_note fs.notes).1,
          { fs with notes := (_undo_last_note fs.notes).2 }) ∧
      undo_last "note" fs =
        ((_undo_last_note fs.notes).1,
          { fs with notes := (_undo_last_note fs.notes).2 })) := by
  refine ⟨rfl, ?_, ?_, ?_⟩
  · intro content
    simp only [_undo_last_note]
    cases hf : findFrom content.data 0 with
    | none =>
      simp only [hf]
      constructor
      · intro h
        cases h
      · rintro ⟨i, hi⟩
        have := (findFrom_eq_none _ _).mp hf i
        rw [this] at hi
        cases hi
    | some j =>
      simp only [hf]
      constructor
      · intro _
        obtain ⟨_, h2, _⟩ := findFrom_eq_some _ _ _ hf
        exact ⟨j - 0, h2⟩
      · intro _
        trivial
  · intro content i h1 h2
    have hf := findFrom_of_least _ _ h1 h2 0
    simp only [_undo_last_note, hf, Nat.zero_add]
  · intro fs
    constructor
    · simp only [undo_last]
      rw [if_neg (by decide : ¬("listen" = "log")), if_pos (Or.inl trivial)]
    · simp only [undo_last]
      rw [if_neg (by decide : ¬("note" = "log")), if_pos (Or.inr trivial)]

/-- Witness for the amended C5 at a concrete two-line document. -/
theorem undo_note_characterization_witness :
    _undo_last_note (some "x\n## 2024-01-01 10:00\nnote body\n") =
      (true, some "x") := by
  have h := undo_note_characterization.2.2.1 "x\n## 2024-01-01 10:00\nnote body\n" 1
    (by decide) (by decide)
  rw [h]
  decide

end VoiceAgent
